import Mathlib

/-!
Shallow embedding of the session lifecycle and matchmaking coordinator of
`src/server.js` (the class-based server: `GameSession`, `SessionManager`,
and the `find` / `getScore` / `disconnect` socket handlers plus the
periodic `cleanup` sweep).

The store is a list of sessions, mirroring the JavaScript array
`sessionManager.sessions`.  Each handler is a pure function from the
server state (plus the event payload) to the new state, the list of
broadcasts emitted (`io.emit`), and the reply sent to the caller.

Each session additionally carries a ghost field `uid`, a monotone counter
assigned at creation.  It does not influence any handler's behaviour (no
handler reads it); it only gives sessions a stable identity so that
per-session temporal properties ("this broadcast is for that session")
can be stated.  The full-session broadcast records, next to the payload
field `sessionId` (which the code computes as `indexOf`, i.e. the current
array position), the ghost `uid` of the session it was emitted for.
-/

namespace Fahoot

/-- `PLAYERS_PER_SESSION = 4` from `server.js`. -/
def PLAYERS_PER_SESSION : Nat := 4

/-- `MAX_SESSIONS = 100` from `server.js`. -/
def MAX_SESSIONS : Nat := 100

/-- `SESSION_TIMEOUT = 5 * 60 * 1000` (5 minutes in ms) from `server.js`. -/
def SESSION_TIMEOUT : Nat := 5 * 60 * 1000

/-- A player entry `{ name, socketId }` as pushed by the `find` handler. -/
structure Player where
  name : String
  socketId : Nat
  deriving Repr, DecidableEq

/-- A score entry: the `{name, score}` data carried by a `getScore`
submission or by the zero-score push in the disconnect handler. -/
structure ScoreEntry where
  name : String
  score : Int
  deriving Repr, DecidableEq

/-- `GameSession` from `server.js`: `players`, `playersScore`,
`disconnectedPlayersCount`, `createdAt`, plus the ghost `uid`. -/
structure GameSession where
  players : List Player
  playersScore : List ScoreEntry
  disconnectedPlayersCount : Nat
  createdAt : Nat
  uid : Nat
  deriving Repr, DecidableEq

/-- The coordinator state: `sessionManager.sessions` plus the ghost
uid source. -/
structure ServerState where
  sessions : List GameSession
  nextUid : Nat
  deriving Repr, DecidableEq

/-- The state at server start: no sessions. -/
def initState : ServerState := { sessions := [], nextUid := 0 }

/-- Broadcasts performed with `io.emit`.  `findFull sessionId uid` is
`io.emit("find", {connected: true, sessionId})`; the second component is
the ghost uid of the session the broadcast was emitted for.
`scoresReady sessionId scores` is `io.emit("getScore", {sessionId, scores})`. -/
inductive Broadcast where
  | findFull (sessionId : Nat) (uid : Nat)
  | scoresReady (sessionId : Nat) (scores : List ScoreEntry)
  deriving Repr, DecidableEq

/-- The reply delivered to the requesting connection only: nothing, the
success acknowledgement, or an error message (`socket.emit('error',...)`
for `find`, the error callback for `getScore`). -/
inductive Reply where
  | silent
  | success
  | failure (msg : String)
  deriving Repr, DecidableEq

/-- Index of the first list element satisfying `p` (JavaScript
`Array.prototype.findIndex` / the index of `Array.prototype.find`). -/
def firstIdx : (p : α → Bool) → List α → Option Nat
  | _, [] => none
  | p, a :: l => if p a then some 0 else (firstIdx p l).map (· + 1)

/-- The `find` handler's name validation:
`!data.name || typeof data.name !== 'string'` rejects exactly the empty
string once the payload is typed as a string. -/
def validName (name : String) : Bool := name ≠ ""

/-- The player append performed by `addPlayer`. -/
def pushPlayer (name : String) (c : Nat) (s : GameSession) : GameSession :=
  { s with players := s.players ++ [⟨name, c⟩] }

/-- The score append performed by the `getScore` handler. -/
def pushScore (name : String) (score : Int) (s : GameSession) : GameSession :=
  { s with playersScore := s.playersScore ++ [⟨name, score⟩] }

/-- The player splice performed by the disconnect handler on a session
below capacity. -/
def removePlayer (c : Nat) (s : GameSession) : GameSession :=
  { s with players := s.players.eraseP (fun p => p.socketId = c) }

/-- The zero-score push and disconnect counter bump performed by the
disconnect handler on a full session. -/
def zeroScore (p : Player) (s : GameSession) : GameSession :=
  { s with
    playersScore := s.playersScore ++ [⟨p.name, 0⟩],
    disconnectedPlayersCount := s.disconnectedPlayersCount + 1 }

/-- The session allocated by `createSession`, as it stands right after
the joining player has been pushed into it. -/
def freshSession (name : String) (c now u : Nat) : GameSession :=
  { players := [⟨name, c⟩], playersScore := [], disconnectedPlayersCount := 0,
    createdAt := now, uid := u }

/-- Replace the session list of a state. -/
def withSessions (st : ServerState) (l : List GameSession) : ServerState :=
  { st with sessions := l }

/-- `session.addPlayer` followed by the capacity check and full
broadcast, applied to the session at index `idx` (the body of the `find`
handler after a session has been selected or created).  The broadcast's
`sessionId` is `sessionManager.sessions.indexOf(session)`, which is
`idx`. -/
def joinInto (st : ServerState) (idx : Nat) (name : String) (socketId : Nat) :
    ServerState × List Broadcast × Reply :=
  match st.sessions[idx]? with
  | none => (st, [], Reply.silent)
  | some s =>
    if PLAYERS_PER_SESSION ≤ s.players.length then
      (st, [], Reply.failure "Session is full")
    else
      let s' := pushPlayer name socketId s
      let st' := withSessions st (st.sessions.set idx s')
      if s'.players.length = PLAYERS_PER_SESSION then
        (st', [Broadcast.findFull idx s'.uid], Reply.silent)
      else
        (st', [], Reply.silent)

/-- The `find` handler: validate the name, select the first session with
spare capacity or create one (`createSession`, which fails once
`MAX_SESSIONS` sessions are live), then add the player and emit the full
broadcast if the session just reached capacity. -/
def join (st : ServerState) (name : String) (socketId : Nat) (now : Nat) :
    ServerState × List Broadcast × Reply :=
  if validName name then
    match firstIdx (fun s => s.players.length < PLAYERS_PER_SESSION) st.sessions with
    | some idx => joinInto st idx name socketId
    | none =>
      if MAX_SESSIONS ≤ st.sessions.length then
        (st, [], Reply.failure "Maximum sessions limit reached")
      else
        let fresh : GameSession :=
          { players := [], playersScore := [], disconnectedPlayersCount := 0,
            createdAt := now, uid := st.nextUid }
        let st' : ServerState :=
          { sessions := st.sessions ++ [fresh], nextUid := st.nextUid + 1 }
        joinInto st' st.sessions.length name socketId
  else
    (st, [], Reply.failure "Invalid player name")

/-- The `getScore` handler: look the session up by position
(`sessionManager.sessions[data.sessionId]`), fail with "Invalid session"
if absent, otherwise append the submission to `playersScore`; when that
list reaches `PLAYERS_PER_SESSION`, broadcast the scores and splice the
session out of the store. -/
def getScore (st : ServerState) (sessionId : Nat) (name : String) (score : Int) :
    ServerState × List Broadcast × Reply :=
  match st.sessions[sessionId]? with
  | none => (st, [], Reply.failure "Invalid session")
  | some s =>
    let s' := pushScore name score s
    if s'.playersScore.length = PLAYERS_PER_SESSION then
      ( withSessions st ((st.sessions.set sessionId s').eraseIdx sessionId),
        [Broadcast.scoresReady sessionId s'.playersScore],
        Reply.success )
    else
      ( withSessions st (st.sessions.set sessionId s'), [], Reply.success )

/-- The `disconnect` handler: scan the sessions in order for the first
one containing a player with the disconnecting socket id; if the session
is below capacity, splice that player out, otherwise push a zero score
for it and bump `disconnectedPlayersCount`, splicing the whole session
out once that counter reaches `PLAYERS_PER_SESSION`.  The handler emits
no broadcast. -/
def disconnect (st : ServerState) (socketId : Nat) : ServerState :=
  match firstIdx (fun s => s.players.any (fun p => p.socketId = socketId)) st.sessions with
  | none => st
  | some i =>
    match st.sessions[i]? with
    | none => st
    | some s =>
      if s.players.length < PLAYERS_PER_SESSION then
        withSessions st (st.sessions.set i (removePlayer socketId s))
      else
        match s.players.find? (fun p => p.socketId = socketId) with
        | none => st
        | some p =>
          let s' := zeroScore p s
          if s'.disconnectedPlayersCount = PLAYERS_PER_SESSION then
            withSessions st (st.sessions.eraseIdx i)
          else
            withSessions st (st.sessions.set i s')

/-- `GameSession.isExpired`: `Date.now() - createdAt > SESSION_TIMEOUT`. -/
def isExpired (s : GameSession) (now : Nat) : Bool :=
  SESSION_TIMEOUT < now - s.createdAt

/-- `SessionManager.cleanup`: keep exactly the sessions that are not
expired. -/
def cleanup (st : ServerState) (now : Nat) : ServerState :=
  { st with sessions := st.sessions.filter (fun s => ¬ isExpired s now) }

/-- A coordinator event: a `find` request, a `getScore` submission, a
transport disconnect, or a tick of the cleanup sweep. -/
inductive Event where
  | join (name : String) (socketId : Nat) (now : Nat)
  | submit (sessionId : Nat) (name : String) (score : Int)
  | disconnect (socketId : Nat)
  | sweep (now : Nat)
  deriving Repr, DecidableEq

/-- One event handled against the state: the new state and the
broadcasts emitted while handling it. -/
def step (st : ServerState) : Event → ServerState × List Broadcast
  | .join n c now => ((join st n c now).1, (join st n c now).2.1)
  | .submit sid n sc => ((getScore st sid n sc).1, (getScore st sid n sc).2.1)
  | .disconnect c => (disconnect st c, [])
  | .sweep now => (cleanup st now, [])

/-- Run a sequence of events from a state. -/
def runState (st : ServerState) : List Event → ServerState
  | [] => st
  | e :: es => runState (step st e).1 es

/-- All broadcasts emitted while running a sequence of events. -/
def runLog (st : ServerState) : List Event → List Broadcast
  | [] => []
  | e :: es => (step st e).2 ++ runLog (step st e).1 es

/-- Four players join at time 0, filling one session (ghost uid 0). -/
def evsFourJoins : List Event :=
  [.join "A" 1 0, .join "B" 2 0, .join "C" 3 0, .join "D" 4 0]

/-- Eight players fill two sessions (uids 0 and 1); then the four
players of the first session submit their scores, which broadcasts the
scores and splices that session out of the store. -/
def evsTwoFullOneScored : List Event :=
  evsFourJoins ++
  [.join "E" 5 0, .join "F" 6 0, .join "G" 7 0, .join "H" 8 0,
   .submit 0 "A" 1, .submit 0 "B" 2, .submit 0 "C" 3, .submit 0 "D" 4]

/-- One full session whose first three players have submitted scores. -/
def evsFullThreeScores : List Event :=
  evsFourJoins ++ [.submit 0 "A" 10, .submit 0 "B" 20, .submit 0 "C" 30]

/-! Generic list facts used by the invariant proofs. -/

theorem firstIdx_some {α : Type _} {p : α → Bool} {l : List α} {i : Nat}
    (h : firstIdx p l = some i) : ∃ a, l[i]? = some a ∧ p a := by
  induction l generalizing i with
  | nil => simp [firstIdx] at h
  | cons a l ih =>
    rw [firstIdx] at h
    cases hp : p a with
    | true =>
      rw [hp] at h
      simp at h
      subst h
      exact ⟨a, by simp, hp⟩
    | false =>
      rw [hp] at h
      simp only [Bool.false_eq_true, if_false, Option.map_eq_some'] at h
      obtain ⟨j, hj, hij⟩ := h
      obtain ⟨b, hb, hpb⟩ := ih hj
      subst hij
      exact ⟨b, by simpa using hb, hpb⟩

theorem firstIdx_none {α : Type _} {p : α → Bool} {l : List α}
    (h : firstIdx p l = none) : ∀ a ∈ l, p a = false := by
  induction l with
  | nil => simp
  | cons a l ih =>
    rw [firstIdx] at h
    cases hp : p a with
    | true => rw [hp] at h; simp at h
    | false =>
      rw [hp] at h
      simp only [Bool.false_eq_true, if_false, Option.map_eq_none'] at h
      intro b hb
      rcases List.mem_cons.mp hb with rfl | hb
      · exact hp
      · exact ih h b hb

theorem set_getElem?_self {α : Type _} : ∀ {l : List α} {i : Nat} {a : α},
    l[i]? = some a → l.set i a = l := by
  intro l
  induction l with
  | nil => intro i a h; simp at h
  | cons b l ih =>
    intro i a h
    cases i with
    | zero => simp at h; simp [h]
    | succ j =>
      simp only [List.getElem?_cons_succ] at h
      simp [ih h]

/-- Sum of `f` over a list (used to count player occurrences across the
store). -/
def sumBy {α : Type _} (f : α → Nat) : List α → Nat
  | [] => 0
  | a :: l => f a + sumBy f l

theorem sumBy_append {α : Type _} (f : α → Nat) (l l' : List α) :
    sumBy f (l ++ l') = sumBy f l + sumBy f l' := by
  induction l with
  | nil => simp [sumBy]
  | cons a l ih => simp [sumBy, ih]; omega

theorem sumBy_set {α : Type _} (f : α → Nat) :
    ∀ (l : List α) (i : Nat) (a b : α), l[i]? = some b →
      sumBy f (l.set i a) + f b = sumBy f l + f a := by
  intro l
  induction l with
  | nil => intro i a b h; simp at h
  | cons x l ih =>
    intro i a b h
    cases i with
    | zero =>
      simp only [List.getElem?_cons_zero, Option.some.injEq] at h
      subst h
      simp [sumBy]
      omega
    | succ j =>
      simp only [List.getElem?_cons_succ] at h
      have hrec := ih j a b h
      simp only [List.set_cons_succ, sumBy]
      omega

theorem sumBy_eraseIdx {α : Type _} (f : α → Nat) :
    ∀ (l : List α) (i : Nat) (b : α), l[i]? = some b →
      sumBy f (l.eraseIdx i) + f b = sumBy f l := by
  intro l
  induction l with
  | nil => intro i b h; simp at h
  | cons x l ih =>
    intro i b h
    cases i with
    | zero =>
      simp only [List.getElem?_cons_zero, Option.some.injEq] at h
      subst h
      simp [sumBy]
      omega
    | succ j =>
      simp only [List.getElem?_cons_succ] at h
      have hrec := ih j b h
      simp only [List.eraseIdx_cons_succ, sumBy]
      omega

theorem sumBy_sublist {α : Type _} (f : α → Nat) {l l' : List α}
    (h : List.Sublist l l') : sumBy f l ≤ sumBy f l' := by
  induction h with
  | slnil => simp [sumBy]
  | cons a _ ih => simp only [sumBy]; omega
  | cons₂ a _ ih => simp only [sumBy]; omega

/-! The reachability invariant: every session respects the player
capacity, every ghost uid is below the uid source, and ghost uids are
pairwise distinct. -/

def Inv (st : ServerState) : Prop :=
  (∀ s ∈ st.sessions, s.players.length ≤ PLAYERS_PER_SESSION) ∧
  (∀ s ∈ st.sessions, s.uid < st.nextUid) ∧
  (st.sessions.map GameSession.uid).Nodup

theorem Inv_init : Inv initState := by
  refine ⟨?_, ?_, ?_⟩ <;> simp [initState, Inv]

theorem Inv_set {st : ServerState} {i : Nat} {s s' : GameSession}
    (h : st.sessions[i]? = some s) (hInv : Inv st)
    (huid : s'.uid = s.uid) (hlen : s'.players.length ≤ PLAYERS_PER_SESSION) :
    Inv { st with sessions := st.sessions.set i s' } := by
  obtain ⟨cap, lt, nd⟩ := hInv
  refine ⟨?_, ?_, ?_⟩
  · intro t ht
    rcases List.mem_or_eq_of_mem_set ht with ht | rfl
    · exact cap t ht
    · exact hlen
  · intro t ht
    rcases List.mem_or_eq_of_mem_set ht with ht | rfl
    · exact lt t ht
    · rw [huid]
      exact lt s (List.getElem?_mem h)
  · have hm : (st.sessions.map GameSession.uid)[i]? = some s'.uid := by
      rw [List.getElem?_map, h, huid]
      rfl
    show ((st.sessions.set i s').map GameSession.uid).Nodup
    rw [List.map_set, set_getElem?_self hm]
    exact nd

theorem Inv_sublist {l l' : List GameSession} {u : Nat}
    (h : List.Sublist l l') (hInv : Inv ⟨l', u⟩) : Inv ⟨l, u⟩ := by
  obtain ⟨cap, lt, nd⟩ := hInv
  exact ⟨fun t ht => cap t (h.subset ht), fun t ht => lt t (h.subset ht),
    (h.map GameSession.uid).nodup nd⟩

theorem Inv_append_fresh {st : ServerState} (hInv : Inv st)
    {s : GameSession} (hlen : s.players.length ≤ PLAYERS_PER_SESSION)
    (huid : s.uid = st.nextUid) :
    Inv { sessions := st.sessions ++ [s], nextUid := st.nextUid + 1 } := by
  obtain ⟨cap, lt, nd⟩ := hInv
  refine ⟨?_, ?_, ?_⟩
  · intro t ht
    rcases List.mem_append.mp ht with ht | ht
    · exact cap t ht
    · rcases List.mem_singleton.mp ht with rfl
      exact hlen
  · intro t ht
    rcases List.mem_append.mp ht with ht | ht
    · exact Nat.lt_succ_of_lt (lt t ht)
    · rcases List.mem_singleton.mp ht with rfl
      rw [huid]
      exact Nat.lt_succ_self _
  · rw [List.map_append]
    rw [List.nodup_append]
    refine ⟨nd, by simp, ?_⟩
    intro a ha hb
    simp only [List.map_cons, List.map_nil, List.mem_cons, List.not_mem_nil, or_false] at hb
    rcases List.mem_map.mp ha with ⟨t, ht, rfl⟩
    have := lt t ht
    omega

/-! Characterizations of the `find` handler's three outcomes: rejected
request, append into an existing open session, append into a freshly
created session. -/

theorem joinInto_found {st : ServerState} {idx : Nat} {s : GameSession}
    (hs : st.sessions[idx]? = some s) (hlt : s.players.length < PLAYERS_PER_SESSION)
    (name : String) (c : Nat) :
    joinInto st idx name c =
      (withSessions st (st.sessions.set idx (pushPlayer name c s)),
       if s.players.length + 1 = PLAYERS_PER_SESSION then
         [Broadcast.findFull idx s.uid] else [],
       Reply.silent) := by
  unfold joinInto
  simp only [hs]
  rw [if_neg (by omega)]
  simp [pushPlayer]
  split <;> simp [*]

theorem join_found {st : ServerState} {idx : Nat} {s : GameSession} {name : String}
    (hv : validName name = true)
    (hfi : firstIdx (fun s => s.players.length < PLAYERS_PER_SESSION) st.sessions = some idx)
    (hs : st.sessions[idx]? = some s) (hlt : s.players.length < PLAYERS_PER_SESSION)
    (c now : Nat) :
    join st name c now =
      (withSessions st (st.sessions.set idx (pushPlayer name c s)),
       if s.players.length + 1 = PLAYERS_PER_SESSION then
         [Broadcast.findFull idx s.uid] else [],
       Reply.silent) := by
  unfold join
  rw [if_pos hv]
  simp only [hfi]
  exact joinInto_found hs hlt name c

theorem join_fresh {st : ServerState} {name : String}
    (hv : validName name = true)
    (hfi : firstIdx (fun s => s.players.length < PLAYERS_PER_SESSION) st.sessions = none)
    (hcap : st.sessions.length < MAX_SESSIONS) (c now : Nat) :
    join st name c now =
      ({ sessions := st.sessions ++ [freshSession name c now st.nextUid],
         nextUid := st.nextUid + 1 }, [], Reply.silent) := by
  unfold join
  rw [if_pos hv]
  simp only [hfi]
  rw [if_neg (by omega)]
  unfold joinInto
  simp only [List.getElem?_concat_length]
  rw [if_neg (by simp [PLAYERS_PER_SESSION, pushPlayer])]
  rw [List.set_append_right _ _ (Nat.le_refl _)]
  simp [PLAYERS_PER_SESSION, freshSession, pushPlayer, withSessions]

/-- Every `find` request leaves the state in one of three shapes:
unchanged (with no broadcast), one open session extended by the new
player (broadcasting when it reaches capacity), or a fresh one-player
session appended (no broadcast). -/
theorem join_shape (st : ServerState) (name : String) (c now : Nat) :
    ((join st name c now).1 = st ∧ (join st name c now).2.1 = []) ∨
    (∃ idx s, st.sessions[idx]? = some s ∧ s.players.length < PLAYERS_PER_SESSION ∧
      (join st name c now).1 =
        withSessions st (st.sessions.set idx (pushPlayer name c s)) ∧
      (join st name c now).2.1 =
        (if s.players.length + 1 = PLAYERS_PER_SESSION then
          [Broadcast.findFull idx s.uid] else [])) ∨
    ((join st name c now).1 =
        { sessions := st.sessions ++ [freshSession name c now st.nextUid],
          nextUid := st.nextUid + 1 } ∧
      (join st name c now).2.1 = []) := by
  cases hv : validName name with
  | false =>
    left
    unfold join
    rw [if_neg (by simp [hv])]
    exact ⟨rfl, rfl⟩
  | true =>
    cases hfi : firstIdx (fun s => s.players.length < PLAYERS_PER_SESSION) st.sessions with
    | some idx =>
      obtain ⟨s, hs, hp⟩ := firstIdx_some hfi
      have hlt : s.players.length < PLAYERS_PER_SESSION := by simpa using hp
      right; left
      exact ⟨idx, s, hs, hlt, by rw [join_found hv hfi hs hlt], by rw [join_found hv hfi hs hlt]⟩
    | none =>
      by_cases hcap : st.sessions.length < MAX_SESSIONS
      · right; right
        rw [join_fresh hv hfi hcap]
        exact ⟨rfl, rfl⟩
      · left
        unfold join
        rw [if_pos hv]
        simp only [hfi]
        rw [if_pos (by omega)]
        exact ⟨rfl, rfl⟩

/-! Preservation of the invariant by every handler. -/

theorem Inv_join {st : ServerState} (hInv : Inv st) (name : String) (c now : Nat) :
    Inv (join st name c now).1 := by
  rcases join_shape st name c now with ⟨h1, _⟩ | ⟨idx, s, hs, hlt, h1, _⟩ | ⟨h1, _⟩
  · rw [h1]; exact hInv
  · rw [h1]
    refine Inv_set hs hInv rfl ?_
    simp only [pushPlayer, List.length_append, List.length_singleton]
    omega
  · rw [h1]
    exact Inv_append_fresh hInv (by simp [freshSession, PLAYERS_PER_SESSION]) rfl

theorem Inv_getScore {st : ServerState} (hInv : Inv st) (sid : Nat) (name : String)
    (score : Int) : Inv (getScore st sid name score).1 := by
  unfold getScore
  cases hs : st.sessions[sid]? with
  | none => simpa using hInv
  | some s =>
    have hcap : s.players.length ≤ PLAYERS_PER_SESSION :=
      hInv.1 s (List.getElem?_mem hs)
    have hset : Inv (withSessions st (st.sessions.set sid (pushScore name score s))) :=
      Inv_set hs hInv rfl hcap
    simp only []
    split
    · exact Inv_sublist (List.eraseIdx_sublist _ sid) hset
    · exact hset

theorem Inv_disconnect {st : ServerState} (hInv : Inv st) (c : Nat) :
    Inv (disconnect st c) := by
  unfold disconnect
  cases hfi : firstIdx (fun s => s.players.any (fun p => p.socketId = c)) st.sessions with
  | none => exact hInv
  | some i =>
    simp only []
    cases hs : st.sessions[i]? with
    | none => exact hInv
    | some s =>
      have hcap : s.players.length ≤ PLAYERS_PER_SESSION :=
        hInv.1 s (List.getElem?_mem hs)
      simp only []
      split
      · refine Inv_set hs hInv rfl ?_
        show (removePlayer c s).players.length ≤ PLAYERS_PER_SESSION
        calc (removePlayer c s).players.length
            ≤ s.players.length := (List.eraseP_sublist _).length_le
          _ ≤ PLAYERS_PER_SESSION := hcap
      · cases hp : s.players.find? (fun p => p.socketId = c) with
        | none => exact hInv
        | some p =>
          simp only []
          split
          · exact Inv_sublist (List.eraseIdx_sublist _ i) hInv
          · exact Inv_set hs hInv rfl hcap

theorem Inv_cleanup {st : ServerState} (hInv : Inv st) (now : Nat) :
    Inv (cleanup st now) :=
  Inv_sublist (List.filter_sublist _) hInv

theorem Inv_step {st : ServerState} (hInv : Inv st) (e : Event) : Inv (step st e).1 := by
  cases e with
  | join n c now => exact Inv_join hInv n c now
  | submit sid n sc => exact Inv_getScore hInv sid n sc
  | disconnect c => exact Inv_disconnect hInv c
  | sweep now => exact Inv_cleanup hInv now

theorem Inv_runState : ∀ (evs : List Event) (st : ServerState), Inv st → Inv (runState st evs)
  | [], _, h => h
  | e :: es, st, h => Inv_runState es (step st e).1 (Inv_step h e)

/-- An event that is a `find` request carrying a valid (non-empty) name. -/
def isValidJoinEvent : Event → Bool
  | .join n _ _ => validName n
  | _ => false

/-- Claim C9.  For every sequence of `find` (join) events carrying valid
(non-empty) names, at every point of the run no session's players list
exceeds `PLAYERS_PER_SESSION = 4`: the open-session selection and the
`addPlayer` guard keep every push below the capacity bound. -/
theorem join_sequences_respect_capacity (evs : List Event)
    (hjoin : ∀ e ∈ evs, isValidJoinEvent e = true) :
    ∀ (k : Nat), ∀ s ∈ (runState initState (evs.take k)).sessions,
      s.players.length ≤ PLAYERS_PER_SESSION :=
  fun k => (Inv_runState (evs.take k) initState Inv_init).1

/-- Witness for C9 on a concrete five-join trace. -/
theorem join_sequences_respect_capacity_witness :
    (∀ e ∈ [Event.join "A" 1 0, Event.join "B" 2 0, Event.join "C" 3 0,
        Event.join "D" 4 0, Event.join "E" 5 0], isValidJoinEvent e = true) ∧
    (∀ (k : Nat), ∀ s ∈ (runState initState ([Event.join "A" 1 0, Event.join "B" 2 0,
        Event.join "C" 3 0, Event.join "D" 4 0, Event.join "E" 5 0].take k)).sessions,
      s.players.length ≤ PLAYERS_PER_SESSION) :=
  ⟨by decide, join_sequences_respect_capacity _ (by decide)⟩

/-! Machinery for the exactly-once property of the "session full"
broadcast.  `badWeight u` weighs a stored session with ghost uid `u`
whose players list is not at capacity; once a session is full (or gone),
`badCount u = 0` and stays `0`, and the `findFull` broadcast for `u` can
only fire from a state where `badCount u ≠ 0`. -/

/-- Does this broadcast announce that the session with ghost uid `u` is
full? -/
def isFullFor (u : Nat) : Broadcast → Bool
  | .findFull _ v => v = u
  | _ => false

theorem sumBy_singleton {α : Type _} (f : α → Nat) (a : α) : sumBy f [a] = f a := by
  simp [sumBy]

theorem isFullFor_iff {u : Nat} {b : Broadcast} :
    isFullFor u b = true ↔ ∃ i, b = Broadcast.findFull i u := by
  cases b with
  | findFull i v =>
    constructor
    · intro h
      have hv : v = u := by simpa [isFullFor] using h
      exact ⟨i, by rw [hv]⟩
    · intro hex
      obtain ⟨j, hj⟩ := hex
      cases hj
      simp [isFullFor]
  | scoresReady i sc =>
    constructor
    · intro h
      simp [isFullFor] at h
    · intro hex
      obtain ⟨j, hj⟩ := hex
      cases hj

def badWeight (u : Nat) (s : GameSession) : Nat :=
  if s.uid = u ∧ s.players.length ≠ PLAYERS_PER_SESSION then 1 else 0

def badCount (u : Nat) (st : ServerState) : Nat := sumBy (badWeight u) st.sessions

/-- The session with ghost uid `u` is either out of the store or stored
at full capacity, and `u` can never be allocated again. -/
def FullOrGone (u : Nat) (st : ServerState) : Prop :=
  u < st.nextUid ∧ badCount u st = 0

theorem sumBy_getElem_le {α : Type _} (f : α → Nat) :
    ∀ (l : List α) (i : Nat) (b : α), l[i]? = some b → f b ≤ sumBy f l := by
  intro l
  induction l with
  | nil => intro i b h; simp at h
  | cons x l ih =>
    intro i b h
    cases i with
    | zero =>
      simp only [List.getElem?_cons_zero, Option.some.injEq] at h
      subst h
      simp [sumBy]
    | succ j =>
      simp only [List.getElem?_cons_succ] at h
      have := ih j b h
      simp only [sumBy]
      omega

theorem sumBy_eq_zero {α : Type _} {f : α → Nat} :
    ∀ {l : List α}, (∀ a ∈ l, f a = 0) → sumBy f l = 0 := by
  intro l
  induction l with
  | nil => intro _; rfl
  | cons x l ih =>
    intro h
    simp only [sumBy]
    rw [h x (by simp), ih (fun a ha => h a (by simp [ha]))]

theorem sumBy_mono {α : Type _} {f g : α → Nat} :
    ∀ {l : List α}, (∀ a ∈ l, f a ≤ g a) → sumBy f l ≤ sumBy g l := by
  intro l
  induction l with
  | nil => intro _; simp [sumBy]
  | cons x l ih =>
    intro h
    simp only [sumBy]
    have h1 := h x (by simp)
    have h2 := ih (fun a ha => h a (by simp [ha]))
    omega

theorem uidCount_le_one {l : List GameSession}
    (nd : (l.map GameSession.uid).Nodup) (u : Nat) :
    sumBy (fun s => if s.uid = u then 1 else 0) l ≤ 1 := by
  induction l with
  | nil => simp [sumBy]
  | cons x l ih =>
    rw [List.map_cons, List.nodup_cons] at nd
    obtain ⟨hx, hl⟩ := nd
    by_cases hxu : x.uid = u
    · have hzero : sumBy (fun s => if s.uid = u then 1 else 0) l = 0 := by
        refine sumBy_eq_zero ?_
        intro a ha
        rw [if_neg]
        intro hau
        exact hx (by rw [hxu, ← hau]; exact List.mem_map_of_mem _ ha)
      simp [sumBy, hxu, hzero]
    · have := ih hl
      simp only [sumBy, if_neg hxu]
      omega

theorem badCount_le_one {st : ServerState} (hInv : Inv st) (u : Nat) :
    badCount u st ≤ 1 := by
  refine le_trans (sumBy_mono ?_) (uidCount_le_one hInv.2.2 u)
  intro s _
  unfold badWeight
  split
  · rename_i h
    rw [if_pos h.1]
  · split <;> omega

theorem badWeight_pushScore {u : Nat} (n : String) (sc : Int) (s : GameSession) :
    badWeight u (pushScore n sc s) = badWeight u s := rfl

theorem badWeight_zeroScore {u : Nat} (p : Player) (s : GameSession) :
    badWeight u (zeroScore p s) = badWeight u s := rfl

/-! Outcome characterizations for `getScore` and `disconnect`. -/

theorem getScore_none {st : ServerState} {sid : Nat} (h : st.sessions[sid]? = none)
    (name : String) (score : Int) :
    getScore st sid name score = (st, [], Reply.failure "Invalid session") := by
  unfold getScore
  simp only [h]

theorem getScore_complete {st : ServerState} {sid : Nat} {s : GameSession}
    (h : st.sessions[sid]? = some s)
    (hlen : s.playersScore.length + 1 = PLAYERS_PER_SESSION) (name : String) (score : Int) :
    getScore st sid name score =
      (withSessions st ((st.sessions.set sid (pushScore name score s)).eraseIdx sid),
       [Broadcast.scoresReady sid (s.playersScore ++ [⟨name, score⟩])],
       Reply.success) := by
  unfold getScore
  simp only [h]
  rw [if_pos (by simp [pushScore]; omega)]
  simp [pushScore]

theorem getScore_incomplete {st : ServerState} {sid : Nat} {s : GameSession}
    (h : st.sessions[sid]? = some s)
    (hlen : s.playersScore.length + 1 ≠ PLAYERS_PER_SESSION) (name : String) (score : Int) :
    getScore st sid name score =
      (withSessions st (st.sessions.set sid (pushScore name score s)), [], Reply.success) := by
  unfold getScore
  simp only [h]
  rw [if_neg (by simp [pushScore]; omega)]

theorem disconnect_shape (st : ServerState) (c : Nat) :
    disconnect st c = st ∨
    (∃ i s, st.sessions[i]? = some s ∧ s.players.length < PLAYERS_PER_SESSION ∧
      disconnect st c = withSessions st (st.sessions.set i (removePlayer c s))) ∨
    (∃ i s p, st.sessions[i]? = some s ∧ PLAYERS_PER_SESSION ≤ s.players.length ∧
      s.players.find? (fun q => q.socketId = c) = some p ∧
      (disconnect st c = withSessions st (st.sessions.eraseIdx i) ∨
       disconnect st c = withSessions st (st.sessions.set i (zeroScore p s)))) := by
  unfold disconnect
  cases hfi : firstIdx (fun s => s.players.any (fun p => p.socketId = c)) st.sessions with
  | none => left; rfl
  | some i =>
    simp only []
    cases hs : st.sessions[i]? with
    | none => left; rfl
    | some s =>
      simp only []
      by_cases hlt : s.players.length < PLAYERS_PER_SESSION
      · right; left
        rw [if_pos hlt]
        exact ⟨i, s, hs, hlt, rfl⟩
      · rw [if_neg hlt]
        cases hp : s.players.find? (fun q => q.socketId = c) with
        | none => left; rfl
        | some p =>
          right; right
          refine ⟨i, s, p, hs, by omega, hp, ?_⟩
          simp only []
          split
          · left; rfl
          · right; rfl

/-! `FullOrGone` is preserved by every step, and a step taken from a
`FullOrGone` state can never emit the full broadcast for that uid. -/

theorem step_FullOrGone {st : ServerState} {u : Nat} (hInv : Inv st)
    (hfg : FullOrGone u st) (e : Event) :
    FullOrGone u (step st e).1 ∧ ∀ i, Broadcast.findFull i u ∉ (step st e).2 := by
  obtain ⟨hu, hbad⟩ := hfg
  cases e with
  | join n c now =>
    rcases join_shape st n c now with ⟨h1, h2⟩ | ⟨idx, s, hs, hlt, h1, h2⟩ | ⟨h1, h2⟩
    · constructor
      · show FullOrGone u (join st n c now).1
        rw [h1]
        exact ⟨hu, hbad⟩
      · intro i hmem
        have : (step st (Event.join n c now)).2 = [] := h2
        rw [this] at hmem
        simp at hmem
    · have hsuid : s.uid ≠ u := by
        intro hequ
        have hle : badWeight u s ≤ badCount u st := sumBy_getElem_le _ _ idx s hs
        have hone : badWeight u s = 1 := by
          unfold badWeight
          rw [if_pos ⟨hequ, by omega⟩]
        omega
      constructor
      · show FullOrGone u (join st n c now).1
        rw [h1]
        refine ⟨hu, ?_⟩
        show sumBy (badWeight u) (st.sessions.set idx (pushPlayer n c s)) = 0
        have hset := sumBy_set (badWeight u) st.sessions idx (pushPlayer n c s) s hs
        have hws : badWeight u s = 0 := by
          unfold badWeight
          rw [if_neg]
          intro hcontra
          exact hsuid hcontra.1
        have hws' : badWeight u (pushPlayer n c s) = 0 := by
          unfold badWeight
          rw [if_neg]
          intro hcontra
          exact hsuid hcontra.1
        unfold badCount at hbad
        omega
      · intro i hmem
        have hlog : (step st (Event.join n c now)).2 =
            (if s.players.length + 1 = PLAYERS_PER_SESSION then
              [Broadcast.findFull idx s.uid] else []) := h2
        rw [hlog] at hmem
        by_cases hc : s.players.length + 1 = PLAYERS_PER_SESSION
        · rw [if_pos hc] at hmem
          simp at hmem
          exact hsuid hmem.2.symm
        · rw [if_neg hc] at hmem
          simp at hmem
    · constructor
      · show FullOrGone u (join st n c now).1
        rw [h1]
        refine ⟨Nat.lt_succ_of_lt hu, ?_⟩
        show sumBy (badWeight u) (st.sessions ++ [freshSession n c now st.nextUid]) = 0
        rw [sumBy_append, sumBy_singleton]
        have hwf : badWeight u (freshSession n c now st.nextUid) = 0 := by
          unfold badWeight
          rw [if_neg]
          intro hcontra
          have : st.nextUid = u := hcontra.1
          omega
        unfold badCount at hbad
        omega
      · intro i hmem
        have : (step st (Event.join n c now)).2 = [] := h2
        rw [this] at hmem
        simp at hmem
  | submit sid n sc =>
    constructor
    · show FullOrGone u (getScore st sid n sc).1
      cases hs : st.sessions[sid]? with
      | none => rw [getScore_none hs]; exact ⟨hu, hbad⟩
      | some s =>
        have hset := sumBy_set (badWeight u) st.sessions sid (pushScore n sc s) s hs
        rw [badWeight_pushScore] at hset
        have hset0 : sumBy (badWeight u) (st.sessions.set sid (pushScore n sc s)) = 0 := by
          unfold badCount at hbad
          omega
        by_cases hlen : s.playersScore.length + 1 = PLAYERS_PER_SESSION
        · rw [getScore_complete hs hlen]
          refine ⟨hu, ?_⟩
          show sumBy (badWeight u)
            ((st.sessions.set sid (pushScore n sc s)).eraseIdx sid) = 0
          have := sumBy_sublist (badWeight u)
            (List.eraseIdx_sublist (st.sessions.set sid (pushScore n sc s)) sid)
          omega
        · rw [getScore_incomplete hs hlen]
          exact ⟨hu, hset0⟩
    · intro i hmem
      cases hs : st.sessions[sid]? with
      | none =>
        have : (step st (Event.submit sid n sc)).2 = [] := by
          show (getScore st sid n sc).2.1 = []
          rw [getScore_none hs]
        rw [this] at hmem
        simp at hmem
      | some s =>
        by_cases hlen : s.playersScore.length + 1 = PLAYERS_PER_SESSION
        · have : (step st (Event.submit sid n sc)).2 =
              [Broadcast.scoresReady sid (s.playersScore ++ [⟨n, sc⟩])] := by
            show (getScore st sid n sc).2.1 = _
            rw [getScore_complete hs hlen]
          rw [this] at hmem
          simp at hmem
        · have : (step st (Event.submit sid n sc)).2 = [] := by
            show (getScore st sid n sc).2.1 = []
            rw [getScore_incomplete hs hlen]
          rw [this] at hmem
          simp at hmem
  | disconnect c =>
    refine ⟨?_, by intro i hmem; simp [step] at hmem⟩
    show FullOrGone u (disconnect st c)
    rcases disconnect_shape st c with h1 | ⟨i, s, hs, hlt, h1⟩ | ⟨i, s, p, hs, hge, hp, h1⟩
    · rw [h1]; exact ⟨hu, hbad⟩
    · have hsuid : s.uid ≠ u := by
        intro hequ
        have hle : badWeight u s ≤ badCount u st := sumBy_getElem_le _ _ i s hs
        have hone : badWeight u s = 1 := by
          unfold badWeight
          rw [if_pos ⟨hequ, by omega⟩]
        omega
      rw [h1]
      refine ⟨hu, ?_⟩
      show sumBy (badWeight u) (st.sessions.set i (removePlayer c s)) = 0
      have hset := sumBy_set (badWeight u) st.sessions i (removePlayer c s) s hs
      have hws : badWeight u s = 0 := by
        unfold badWeight
        rw [if_neg]
        intro hcontra
        exact hsuid hcontra.1
      have hws' : badWeight u (removePlayer c s) = 0 := by
        unfold badWeight
        rw [if_neg]
        intro hcontra
        exact hsuid hcontra.1
      unfold badCount at hbad
      omega
    · rcases h1 with h1 | h1
      · rw [h1]
        refine ⟨hu, ?_⟩
        show sumBy (badWeight u) (st.sessions.eraseIdx i) = 0
        have := sumBy_sublist (badWeight u) (List.eraseIdx_sublist st.sessions i)
        unfold badCount at hbad
        omega
      · rw [h1]
        refine ⟨hu, ?_⟩
        show sumBy (badWeight u) (st.sessions.set i (zeroScore p s)) = 0
        have hset := sumBy_set (badWeight u) st.sessions i (zeroScore p s) s hs
        rw [badWeight_zeroScore] at hset
        unfold badCount at hbad
        omega
  | sweep now =>
    refine ⟨?_, by intro i hmem; simp [step] at hmem⟩
    show FullOrGone u (cleanup st now)
    refine ⟨hu, ?_⟩
    show sumBy (badWeight u) (st.sessions.filter (fun s => ¬ isExpired s now)) = 0
    have hsub : sumBy (badWeight u) (st.sessions.filter (fun s => ¬ isExpired s now)) ≤
        sumBy (badWeight u) st.sessions :=
      sumBy_sublist (badWeight u) (List.filter_sublist st.sessions)
    unfold badCount at hbad
    omega

/-- Emitting the full broadcast for `u` establishes `FullOrGone u`:
the session just reached capacity, and uid uniqueness guarantees no
other under-capacity session carries `u`. -/
theorem emission_FullOrGone {st : ServerState} {u : Nat} (hInv : Inv st) {e : Event}
    {i : Nat} (hmem : Broadcast.findFull i u ∈ (step st e).2) :
    FullOrGone u (step st e).1 := by
  cases e with
  | submit sid n sc =>
    cases hs : st.sessions[sid]? with
    | none =>
      have h0 : (step st (Event.submit sid n sc)).2 = [] := by
        show (getScore st sid n sc).2.1 = []
        rw [getScore_none hs]
      rw [h0] at hmem
      simp at hmem
    | some s =>
      by_cases hlen : s.playersScore.length + 1 = PLAYERS_PER_SESSION
      · have h0 : (step st (Event.submit sid n sc)).2 =
            [Broadcast.scoresReady sid (s.playersScore ++ [⟨n, sc⟩])] := by
          show (getScore st sid n sc).2.1 = _
          rw [getScore_complete hs hlen]
        rw [h0] at hmem
        simp at hmem
      · have h0 : (step st (Event.submit sid n sc)).2 = [] := by
          show (getScore st sid n sc).2.1 = []
          rw [getScore_incomplete hs hlen]
        rw [h0] at hmem
        simp at hmem
  | disconnect c => simp [step] at hmem
  | sweep now => simp [step] at hmem
  | join n c now =>
    rcases join_shape st n c now with ⟨h1, h2⟩ | ⟨idx, s, hs, hlt, h1, h2⟩ | ⟨h1, h2⟩
    · have h0 : (step st (Event.join n c now)).2 = [] := h2
      rw [h0] at hmem
      simp at hmem
    · have hlog : (step st (Event.join n c now)).2 =
          (if s.players.length + 1 = PLAYERS_PER_SESSION then
            [Broadcast.findFull idx s.uid] else []) := h2
      rw [hlog] at hmem
      by_cases hc : s.players.length + 1 = PLAYERS_PER_SESSION
      · rw [if_pos hc] at hmem
        simp at hmem
        obtain ⟨hi, husu⟩ := hmem
        have hsu : s.uid = u := husu.symm
        have hpost : (step st (Event.join n c now)).1 = (join st n c now).1 := rfl
        rw [hpost, h1]
        constructor
        · show u < st.nextUid
          rw [← hsu]
          exact hInv.2.1 s (List.getElem?_mem hs)
        · show sumBy (badWeight u) (st.sessions.set idx (pushPlayer n c s)) = 0
          have hset := sumBy_set (badWeight u) st.sessions idx (pushPlayer n c s) s hs
          have hws : badWeight u s = 1 := by
            unfold badWeight
            rw [if_pos ⟨hsu, by omega⟩]
          have hws' : badWeight u (pushPlayer n c s) = 0 := by
            unfold badWeight
            rw [if_neg]
            intro hcontra
            have : (pushPlayer n c s).players.length = PLAYERS_PER_SESSION := by
              show (s.players ++ [Player.mk n c]).length = PLAYERS_PER_SESSION
              rw [List.length_append]
              simpa using hc
            exact hcontra.2 this
          have hble : badCount u st ≤ 1 := badCount_le_one hInv u
          unfold badCount at hble
          omega
      · rw [if_neg hc] at hmem
        simp at hmem
    · have h0 : (step st (Event.join n c now)).2 = [] := h2
      rw [h0] at hmem
      simp at hmem

/-- A full broadcast can only arise from a `find` (join) event, for the
session stored at the broadcast's own `sessionId` index: that session
carried `PLAYERS_PER_SESSION - 1` players before the join and carries
exactly `PLAYERS_PER_SESSION` afterwards. -/
theorem emission_characterization {st : ServerState} {e : Event} {i u : Nat}
    (hmem : Broadcast.findFull i u ∈ (step st e).2) :
    (∃ n c t, e = Event.join n c t) ∧
    (∃ s, st.sessions[i]? = some s ∧ s.uid = u ∧
      s.players.length + 1 = PLAYERS_PER_SESSION) ∧
    (∃ ps, (step st e).1.sessions[i]? = some ps ∧ ps.uid = u ∧
      ps.players.length = PLAYERS_PER_SESSION) := by
  cases e with
  | submit sid n sc =>
    cases hs : st.sessions[sid]? with
    | none =>
      have h0 : (step st (Event.submit sid n sc)).2 = [] := by
        show (getScore st sid n sc).2.1 = []
        rw [getScore_none hs]
      rw [h0] at hmem
      simp at hmem
    | some s =>
      by_cases hlen : s.playersScore.length + 1 = PLAYERS_PER_SESSION
      · have h0 : (step st (Event.submit sid n sc)).2 =
            [Broadcast.scoresReady sid (s.playersScore ++ [⟨n, sc⟩])] := by
          show (getScore st sid n sc).2.1 = _
          rw [getScore_complete hs hlen]
        rw [h0] at hmem
        simp at hmem
      · have h0 : (step st (Event.submit sid n sc)).2 = [] := by
          show (getScore st sid n sc).2.1 = []
          rw [getScore_incomplete hs hlen]
        rw [h0] at hmem
        simp at hmem
  | disconnect c => simp [step] at hmem
  | sweep now => simp [step] at hmem
  | join n c now =>
    rcases join_shape st n c now with ⟨h1, h2⟩ | ⟨idx, s, hs, hlt, h1, h2⟩ | ⟨h1, h2⟩
    · have h0 : (step st (Event.join n c now)).2 = [] := h2
      rw [h0] at hmem
      simp at hmem
    · have hlog : (step st (Event.join n c now)).2 =
          (if s.players.length + 1 = PLAYERS_PER_SESSION then
            [Broadcast.findFull idx s.uid] else []) := h2
      rw [hlog] at hmem
      by_cases hc : s.players.length + 1 = PLAYERS_PER_SESSION
      · rw [if_pos hc] at hmem
        simp at hmem
        obtain ⟨hi, husu⟩ := hmem
        subst hi
        refine ⟨⟨n, c, now, rfl⟩, ⟨s, hs, husu.symm, hc⟩, ?_⟩
        refine ⟨pushPlayer n c s, ?_, husu.symm, ?_⟩
        · have hlt' : i < st.sessions.length := by
            obtain ⟨hw, _⟩ := List.getElem?_eq_some_iff.mp hs
            exact hw
          have hpost : (step st (Event.join n c now)).1 = (join st n c now).1 := rfl
          rw [hpost, h1]
          show (st.sessions.set i (pushPlayer n c s))[i]? = some (pushPlayer n c s)
          exact List.getElem?_set_self (by simpa using hlt')
        · show (s.players ++ [Player.mk n c]).length = PLAYERS_PER_SESSION
          rw [List.length_append]
          simpa using hc
      · rw [if_neg hc] at hmem
        simp at hmem
    · have h0 : (step st (Event.join n c now)).2 = [] := h2
      rw [h0] at hmem
      simp at hmem

/-- Conversely, a join that changes the session stored at index `i` into
a session at full capacity does emit the full broadcast for it. -/
theorem join_emits_on_fill {st : ServerState} {n : String} {c t i : Nat} {ps : GameSession}
    (hpost : (step st (Event.join n c t)).1.sessions[i]? = some ps)
    (hfull : ps.players.length = PLAYERS_PER_SESSION)
    (hchanged : st.sessions[i]? ≠ some ps) :
    Broadcast.findFull i ps.uid ∈ (step st (Event.join n c t)).2 := by
  rcases join_shape st n c t with ⟨h1, h2⟩ | ⟨idx, s, hs, hlt, h1, h2⟩ | ⟨h1, h2⟩
  · exfalso
    apply hchanged
    rw [← hpost]
    have : (step st (Event.join n c t)).1 = st := h1
    rw [this]
  · have hpost' : (st.sessions.set idx (pushPlayer n c s))[i]? = some ps := by
      have h0 : (step st (Event.join n c t)).1 = (join st n c t).1 := rfl
      rw [h0, h1] at hpost
      exact hpost
    by_cases hii : i = idx
    · subst hii
      have hlt' : i < st.sessions.length := by
        obtain ⟨hw, _⟩ := List.getElem?_eq_some_iff.mp hs
        exact hw
      rw [List.getElem?_set_self (by simpa using hlt')] at hpost'
      have hps : ps = pushPlayer n c s := by
        injection hpost' with h
        exact h.symm
      subst hps
      have hcond : s.players.length + 1 = PLAYERS_PER_SESSION := by
        have : (s.players ++ [Player.mk n c]).length = PLAYERS_PER_SESSION := hfull
        rw [List.length_append] at this
        simpa using this
      have hlog : (step st (Event.join n c t)).2 =
          [Broadcast.findFull i s.uid] := by
        have h0 : (step st (Event.join n c t)).2 = (join st n c t).2.1 := rfl
        rw [h0, h2, if_pos hcond]
      rw [hlog]
      simp
      rfl
    · exfalso
      apply hchanged
      rw [← hpost']
      exact (List.getElem?_set_ne (fun h => hii h.symm)).symm
  · have hpost' : (st.sessions ++ [freshSession n c t st.nextUid])[i]? = some ps := by
      have h0 : (step st (Event.join n c t)).1 = (join st n c t).1 := rfl
      rw [h0, h1] at hpost
      exact hpost
    rcases Nat.lt_trichotomy i st.sessions.length with hi | hi | hi
    · exfalso
      apply hchanged
      rw [← hpost']
      exact (List.getElem?_append_left hi).symm
    · exfalso
      subst hi
      rw [List.getElem?_concat_length] at hpost'
      have hps : ps = freshSession n c t st.nextUid := by
        injection hpost' with h
        exact h.symm
      subst hps
      have : (1 : Nat) = PLAYERS_PER_SESSION := hfull
      simp [PLAYERS_PER_SESSION] at this
    · exfalso
      have hnone : (st.sessions ++ [freshSession n c t st.nextUid])[i]? = none := by
        rw [List.getElem?_eq_none_iff]
        simp
        omega
      rw [hnone] at hpost'
      simp at hpost'

/-! The trace-level count: the full broadcast for a given uid occurs at
most once over any run. -/

theorem step_log_length {st : ServerState} (e : Event) : (step st e).2.length ≤ 1 := by
  cases e with
  | join n c now =>
    rcases join_shape st n c now with ⟨_, h2⟩ | ⟨idx, s, _, _, _, h2⟩ | ⟨_, h2⟩
    · rw [show (step st (Event.join n c now)).2 = [] from h2]; simp
    · rw [show (step st (Event.join n c now)).2 = _ from h2]
      split <;> simp
    · rw [show (step st (Event.join n c now)).2 = [] from h2]; simp
  | submit sid n sc =>
    cases hs : st.sessions[sid]? with
    | none =>
      rw [show (step st (Event.submit sid n sc)).2 = (getScore st sid n sc).2.1 from rfl,
        getScore_none hs]
      simp
    | some s =>
      by_cases hlen : s.playersScore.length + 1 = PLAYERS_PER_SESSION
      · rw [show (step st (Event.submit sid n sc)).2 = (getScore st sid n sc).2.1 from rfl,
          getScore_complete hs hlen]
        simp
      · rw [show (step st (Event.submit sid n sc)).2 = (getScore st sid n sc).2.1 from rfl,
          getScore_incomplete hs hlen]
        simp
  | disconnect c => simp [step]
  | sweep now => simp [step]

theorem runLog_no_full_of_FullOrGone {u : Nat} :
    ∀ (evs : List Event) (st : ServerState), Inv st → FullOrGone u st →
      (runLog st evs).countP (isFullFor u) = 0 := by
  intro evs
  induction evs with
  | nil => intro st _ _; rfl
  | cons e es ih =>
    intro st hInv hfg
    show ((step st e).2 ++ runLog (step st e).1 es).countP (isFullFor u) = 0
    rw [List.countP_append]
    obtain ⟨hfg', hno⟩ := step_FullOrGone hInv hfg e
    have hhead : (step st e).2.countP (isFullFor u) = 0 := by
      rw [List.countP_eq_zero]
      intro b hb hfb
      obtain ⟨i, rfl⟩ := isFullFor_iff.mp hfb
      exact hno i hb
    rw [hhead, ih (step st e).1 (Inv_step hInv e) hfg']

theorem runLog_full_le_one {u : Nat} :
    ∀ (evs : List Event) (st : ServerState), Inv st →
      (runLog st evs).countP (isFullFor u) ≤ 1 := by
  intro evs
  induction evs with
  | nil => intro st _; simp [runLog]
  | cons e es ih =>
    intro st hInv
    show ((step st e).2 ++ runLog (step st e).1 es).countP (isFullFor u) ≤ 1
    rw [List.countP_append]
    by_cases hhead : ∀ b ∈ (step st e).2, isFullFor u b = false
    · have h0 : (step st e).2.countP (isFullFor u) = 0 := by
        rw [List.countP_eq_zero]
        intro b hb hfb
        rw [hhead b hb] at hfb
        exact Bool.false_ne_true hfb
      rw [h0]
      simpa using ih (step st e).1 (Inv_step hInv e)
    · push_neg at hhead
      obtain ⟨b, hb, hfb⟩ := hhead
      have hfb' : isFullFor u b = true := by
        cases hq : isFullFor u b with
        | true => rfl
        | false => exact absurd hq hfb
      obtain ⟨i, rfl⟩ := isFullFor_iff.mp hfb'
      have hfg' : FullOrGone u (step st e).1 := emission_FullOrGone hInv hb
      have htail : (runLog (step st e).1 es).countP (isFullFor u) = 0 :=
        runLog_no_full_of_FullOrGone es (step st e).1 (Inv_step hInv e) hfg'
      have hh : (step st e).2.countP (isFullFor u) ≤ 1 :=
        le_trans (List.countP_le_length _) (step_log_length e)
      omega

/-- Claim C8.  For every run of the coordinator and every session (named
by its stable ghost uid `u`), the "session full" broadcast for that
session is emitted at most once over the whole run (first conjunct);
whenever it is emitted, the emitting event is a `find` (join) whose
append took the session stored at the broadcast's id from
`PLAYERS_PER_SESSION - 1` players to exactly `PLAYERS_PER_SESSION`
(second conjunct); and conversely every join that changes a stored
session into one at full capacity emits the broadcast for it (third
conjunct) — so the broadcast fires exactly once per session, precisely
at the join that makes `players.length` reach `CAPACITY`. -/
theorem session_full_broadcast_once (evs : List Event) (u : Nat) :
    (runLog initState evs).countP (isFullFor u) ≤ 1 ∧
    (∀ (e : Event) (i : Nat),
        Broadcast.findFull i u ∈ (step (runState initState evs) e).2 →
        (∃ n c t, e = Event.join n c t) ∧
        (∃ s, (runState initState evs).sessions[i]? = some s ∧ s.uid = u ∧
          s.players.length + 1 = PLAYERS_PER_SESSION) ∧
        (∃ ps, (step (runState initState evs) e).1.sessions[i]? = some ps ∧
          ps.uid = u ∧ ps.players.length = PLAYERS_PER_SESSION)) ∧
    (∀ (n : String) (c t i : Nat) (ps : GameSession),
        (step (runState initState evs) (Event.join n c t)).1.sessions[i]? = some ps →
        ps.players.length = PLAYERS_PER_SESSION →
        (runState initState evs).sessions[i]? ≠ some ps →
        Broadcast.findFull i ps.uid ∈ (step (runState initState evs) (Event.join n c t)).2) :=
  ⟨runLog_full_le_one evs initState Inv_init,
   fun _ _ hmem => emission_characterization hmem,
   fun _ _ _ _ _ hpost hfull hchanged => join_emits_on_fill hpost hfull hchanged⟩

/-- A three-join trace leaving the single session one player short of
capacity. -/
def evsThreeJoins : List Event :=
  [Event.join "A" 1 0, Event.join "B" 2 0, Event.join "C" 3 0]

/-- Witness for C8: on the three-join trace the count is within the
bound, the fourth join's broadcast satisfies the characterization, and
the filled session's broadcast is indeed emitted at that join. -/
theorem session_full_broadcast_once_witness :
    ((runLog initState evsThreeJoins).countP (isFullFor 0) ≤ 1) ∧
    ((∃ n c t, Event.join "D" 4 0 = Event.join n c t) ∧
     (∃ s, (runState initState evsThreeJoins).sessions[0]? = some s ∧ s.uid = 0 ∧
        s.players.length + 1 = PLAYERS_PER_SESSION) ∧
     (∃ ps, (step (runState initState evsThreeJoins) (Event.join "D" 4 0)).1.sessions[0]? =
        some ps ∧ ps.uid = 0 ∧ ps.players.length = PLAYERS_PER_SESSION)) ∧
    Broadcast.findFull 0 0 ∈ (step (runState initState evsThreeJoins) (Event.join "D" 4 0)).2 :=
  ⟨(session_full_broadcast_once evsThreeJoins 0).1,
   (session_full_broadcast_once evsThreeJoins 0).2.1 (Event.join "D" 4 0) 0 (by decide),
   (session_full_broadcast_once evsThreeJoins 0).2.2 "D" 4 0 0
     ⟨[⟨"A", 1⟩, ⟨"B", 2⟩, ⟨"C", 3⟩, ⟨"D", 4⟩], [], 0, 0, 0⟩
     (by decide) (by decide) (by decide)⟩

/-- Claim C4 (amended).  Each run of the sweep keeps exactly the
sessions whose age does not exceed `SESSION_TIMEOUT`: membership after
`cleanup` is equivalent to prior membership plus non-expiry, with no
reference to the players list — so fullness grants no exemption. -/
theorem cleanup_removes_exactly_expired (st : ServerState) (now : Nat) (s : GameSession) :
    s ∈ (cleanup st now).sessions ↔
      s ∈ st.sessions ∧ ¬ (SESSION_TIMEOUT < now - s.createdAt) := by
  show s ∈ st.sessions.filter (fun s => ¬ isExpired s now) ↔ _
  rw [List.mem_filter]
  unfold isExpired
  simp

/-! Occurrence counting for connection ids, for the membership bound on
connections. -/

/-- Number of player entries with socket id `c` in a session. -/
def occWeight (c : Nat) (s : GameSession) : Nat :=
  s.players.countP (fun p => p.socketId = c)

/-- Total occurrences of connection `c` across all live sessions. -/
def occCount (c : Nat) (st : ServerState) : Nat := sumBy (occWeight c) st.sessions

/-- Is this event a `find` request issued by connection `c`? -/
def isJoinBy (c : Nat) : Event → Bool
  | .join _ c' _ => c' = c
  | _ => false

/-- Number of join events issued by connection `c`. -/
def joinCount (c : Nat) (evs : List Event) : Nat := evs.countP (isJoinBy c)

theorem occWeight_pushPlayer (c : Nat) (n : String) (c' : Nat) (s : GameSession) :
    occWeight c (pushPlayer n c' s) = occWeight c s + (if c' = c then 1 else 0) := by
  unfold occWeight pushPlayer
  show (s.players ++ [Player.mk n c']).countP (fun p => p.socketId = c) = _
  rw [List.countP_append]
  congr 1
  rw [List.countP_cons, List.countP_nil]
  simp

theorem occWeight_removePlayer_le (c c' : Nat) (s : GameSession) :
    occWeight c (removePlayer c' s) ≤ occWeight c s :=
  List.Sublist.countP_le _ (List.eraseP_sublist _)

theorem occWeight_pushScore (c : Nat) (n : String) (sc : Int) (s : GameSession) :
    occWeight c (pushScore n sc s) = occWeight c s := rfl

theorem occWeight_zeroScore (c : Nat) (p : Player) (s : GameSession) :
    occWeight c (zeroScore p s) = occWeight c s := rfl

theorem occWeight_freshSession (c : Nat) (n : String) (c' now u : Nat) :
    occWeight c (freshSession n c' now u) = (if c' = c then 1 else 0) := by
  unfold occWeight freshSession
  show ([Player.mk n c']).countP (fun p => p.socketId = c) = _
  rw [List.countP_cons, List.countP_nil]
  simp

theorem occCount_step (st : ServerState) (c : Nat) (e : Event) :
    occCount c (step st e).1 ≤ occCount c st +
      (if isJoinBy c e then 1 else 0) := by
  cases e with
  | join n c' now =>
    have hjb : (if isJoinBy c (Event.join n c' now) then 1 else 0) =
        (if c' = c then 1 else 0) := by
      unfold isJoinBy
      by_cases h : c' = c <;> simp [h]
    rw [hjb]
    rcases join_shape st n c' now with ⟨h1, _⟩ | ⟨idx, s, hs, hlt, h1, _⟩ | ⟨h1, _⟩
    · have h0 : (step st (Event.join n c' now)).1 = st := h1
      rw [h0]
      omega
    · have h0 : (step st (Event.join n c' now)).1 =
          withSessions st (st.sessions.set idx (pushPlayer n c' s)) := h1
      rw [h0]
      show sumBy (occWeight c) (st.sessions.set idx (pushPlayer n c' s)) ≤ _
      have hset := sumBy_set (occWeight c) st.sessions idx (pushPlayer n c' s) s hs
      have hw := occWeight_pushPlayer c n c' s
      unfold occCount
      omega
    · have h0 : (step st (Event.join n c' now)).1 =
          { sessions := st.sessions ++ [freshSession n c' now st.nextUid],
            nextUid := st.nextUid + 1 } := h1
      rw [h0]
      show sumBy (occWeight c) (st.sessions ++ [freshSession n c' now st.nextUid]) ≤ _
      rw [sumBy_append, sumBy_singleton, occWeight_freshSession]
      unfold occCount
      omega
  | submit sid n sc =>
    have hjb : (if isJoinBy c (Event.submit sid n sc) then 1 else 0) = 0 := by
      simp [isJoinBy]
    rw [hjb]
    cases hs : st.sessions[sid]? with
    | none =>
      rw [show (step st (Event.submit sid n sc)).1 = (getScore st sid n sc).1 from rfl,
        getScore_none hs]
      show occCount c st ≤ occCount c st + 0
      omega
    | some s =>
      by_cases hlen : s.playersScore.length + 1 = PLAYERS_PER_SESSION
      · rw [show (step st (Event.submit sid n sc)).1 = (getScore st sid n sc).1 from rfl,
          getScore_complete hs hlen]
        show sumBy (occWeight c) ((st.sessions.set sid (pushScore n sc s)).eraseIdx sid) ≤ _
        have hsub := sumBy_sublist (occWeight c)
          (List.eraseIdx_sublist (st.sessions.set sid (pushScore n sc s)) sid)
        have hset := sumBy_set (occWeight c) st.sessions sid (pushScore n sc s) s hs
        rw [occWeight_pushScore] at hset
        unfold occCount
        omega
      · rw [show (step st (Event.submit sid n sc)).1 = (getScore st sid n sc).1 from rfl,
          getScore_incomplete hs hlen]
        show sumBy (occWeight c) (st.sessions.set sid (pushScore n sc s)) ≤ _
        have hset := sumBy_set (occWeight c) st.sessions sid (pushScore n sc s) s hs
        rw [occWeight_pushScore] at hset
        unfold occCount
        omega
  | disconnect c' =>
    have hjb : (if isJoinBy c (Event.disconnect c') then 1 else 0) = 0 := by
      simp [isJoinBy]
    rw [hjb]
    show occCount c (disconnect st c') ≤ occCount c st + 0
    rcases disconnect_shape st c' with h1 | ⟨i, s, hs, hlt, h1⟩ | ⟨i, s, p, hs, hge, hp, h1⟩
    · rw [h1]; omega
    · rw [h1]
      show sumBy (occWeight c) (st.sessions.set i (removePlayer c' s)) ≤ _
      have hset := sumBy_set (occWeight c) st.sessions i (removePlayer c' s) s hs
      have hle := occWeight_removePlayer_le c c' s
      unfold occCount
      omega
    · rcases h1 with h1 | h1
      · rw [h1]
        show sumBy (occWeight c) (st.sessions.eraseIdx i) ≤ _
        have hsub := sumBy_sublist (occWeight c) (List.eraseIdx_sublist st.sessions i)
        unfold occCount
        omega
      · rw [h1]
        show sumBy (occWeight c) (st.sessions.set i (zeroScore p s)) ≤ _
        have hset := sumBy_set (occWeight c) st.sessions i (zeroScore p s) s hs
        rw [occWeight_zeroScore] at hset
        unfold occCount
        omega
  | sweep now =>
    have hjb : (if isJoinBy c (Event.sweep now) then 1 else 0) = 0 := by
      simp [isJoinBy]
    rw [hjb]
    show sumBy (occWeight c) (st.sessions.filter (fun s => ¬ isExpired s now)) ≤ _
    have hsub : sumBy (occWeight c) (st.sessions.filter (fun s => ¬ isExpired s now)) ≤
        sumBy (occWeight c) st.sessions :=
      sumBy_sublist (occWeight c) (List.filter_sublist st.sessions)
    unfold occCount
    omega

theorem occCount_runState (c : Nat) :
    ∀ (evs : List Event) (st : ServerState),
      occCount c (runState st evs) ≤ occCount c st + joinCount c evs := by
  intro evs
  induction evs with
  | nil =>
    intro st
    show occCount c st ≤ occCount c st + joinCount c []
    omega
  | cons e es ih =>
    intro st
    show occCount c (runState (step st e).1 es) ≤ _
    have h1 := ih (step st e).1
    have h2 := occCount_step st c e
    have h3 : joinCount c (e :: es) = (if isJoinBy c e then 1 else 0) + joinCount c es := by
      unfold joinCount
      rw [List.countP_cons]
      by_cases h : isJoinBy c e <;> simp [h] <;> omega
    rw [h3]
    omega

/-- Claim C6 (amended).  The coordinator performs no duplicate check on
join, so a connection id may occur several times across live sessions;
what holds instead is that at every point of the run its number of
occurrences never exceeds the number of join events it has issued — in
particular a connection that joins at most once occupies at most one
player slot, in at most one session. -/
theorem connection_occurrences_bounded_by_joins (evs : List Event) (c : Nat) :
    (∀ (k : Nat), occCount c (runState initState (evs.take k)) ≤
      joinCount c (evs.take k)) ∧
    (joinCount c evs ≤ 1 → occCount c (runState initState evs) ≤ 1) := by
  constructor
  · intro k
    have := occCount_runState c (evs.take k) initState
    have h0 : occCount c initState = 0 := rfl
    omega
  · intro h
    have := occCount_runState c evs initState
    have h0 : occCount c initState = 0 := rfl
    omega

/-- Witness for C6 (amended) on a concrete trace where socket 1 joins
once among other events. -/
theorem connection_occurrences_bounded_by_joins_witness :
    (∀ (k : Nat), occCount 1 (runState initState
        ([Event.join "A" 1 0, Event.join "B" 2 0, Event.disconnect 2].take k)) ≤
      joinCount 1 ([Event.join "A" 1 0, Event.join "B" 2 0, Event.disconnect 2].take k)) ∧
    (joinCount 1 [Event.join "A" 1 0, Event.join "B" 2 0, Event.disconnect 2] ≤ 1 ∧
      occCount 1 (runState initState
        [Event.join "A" 1 0, Event.join "B" 2 0, Event.disconnect 2]) ≤ 1) :=
  ⟨(connection_occurrences_bounded_by_joins
      [Event.join "A" 1 0, Event.join "B" 2 0, Event.disconnect 2] 1).1,
   by decide,
   (connection_occurrences_bounded_by_joins
      [Event.join "A" 1 0, Event.join "B" 2 0, Event.disconnect 2] 1).2 (by decide)⟩

/-- Claim C7 (amended).  A player who joins an otherwise empty store
and disconnects while the session is still filling leaves the session in
the store with the player entry spliced out; no broadcast is emitted by
either event, but the emptied session — being below capacity — is still
returned by the open-session lookup, so it is reused by later joins. -/
theorem filling_disconnect_leaves_open_session (name : String) (c now : Nat)
    (h : name ≠ "") :
    runState initState [Event.join name c now, Event.disconnect c] =
      { sessions := [removePlayer c (freshSession name c now 0)], nextUid := 1 } ∧
    runLog initState [Event.join name c now, Event.disconnect c] = [] ∧
    firstIdx (fun s => s.players.length < PLAYERS_PER_SESSION)
      (runState initState [Event.join name c now, Event.disconnect c]).sessions = some 0 := by
  have hv : validName name = true := by
    simp [validName]
    exact h
  have hfi0 : firstIdx (fun s => s.players.length < PLAYERS_PER_SESSION)
      initState.sessions = none := rfl
  have hje := join_fresh hv hfi0 (by decide) c now
  have hrun1 : (step initState (Event.join name c now)).1 =
      { sessions := [freshSession name c now 0], nextUid := 1 } := by
    show (join initState name c now).1 = _
    rw [hje]
    rfl
  have hlog1 : (step initState (Event.join name c now)).2 = [] := by
    show (join initState name c now).2.1 = []
    rw [hje]
  have hrun2 : disconnect { sessions := [freshSession name c now 0], nextUid := 1 } c =
      { sessions := [removePlayer c (freshSession name c now 0)], nextUid := 1 } := by
    unfold disconnect
    have hany : firstIdx (fun s => s.players.any (fun p => p.socketId = c))
        [freshSession name c now 0] = some 0 := by
      simp [firstIdx, freshSession]
    simp only [hany]
    simp only [List.getElem?_cons_zero]
    rw [if_pos (by simp [freshSession, PLAYERS_PER_SESSION])]
    rfl
  have hfinal : runState initState [Event.join name c now, Event.disconnect c] =
      { sessions := [removePlayer c (freshSession name c now 0)], nextUid := 1 } := by
    show (step (step initState (Event.join name c now)).1 (Event.disconnect c)).1 = _
    rw [hrun1]
    show disconnect { sessions := [freshSession name c now 0], nextUid := 1 } c = _
    exact hrun2
  refine ⟨hfinal, ?_, ?_⟩
  · show (step initState (Event.join name c now)).2 ++
      ((step (step initState (Event.join name c now)).1 (Event.disconnect c)).2 ++ []) = []
    rw [hlog1]
    rfl
  · rw [hfinal]
    simp [firstIdx, removePlayer, freshSession, PLAYERS_PER_SESSION]

/-- Witness for C7 (amended) at name "A", socket 1, time 0. -/
theorem filling_disconnect_leaves_open_session_witness :
    ("A" ≠ "") ∧
    (runState initState [Event.join "A" 1 0, Event.disconnect 1] =
      { sessions := [removePlayer 1 (freshSession "A" 1 0 0)], nextUid := 1 } ∧
     runLog initState [Event.join "A" 1 0, Event.disconnect 1] = [] ∧
     firstIdx (fun s => s.players.length < PLAYERS_PER_SESSION)
       (runState initState [Event.join "A" 1 0, Event.disconnect 1]).sessions = some 0) :=
  ⟨by decide, filling_disconnect_leaves_open_session "A" 1 0 (by decide)⟩

/-- Claim C10.  The only check `getScore` makes is that
`sessions[sessionId]` resolves: under that sole hypothesis — with no
constraint whatsoever relating `name` to the session's players — the
submission is acknowledged with success, `{name, score}` is appended to
the session's score list, and it counts toward the CAPACITY-entry
quorum: the "scores ready" broadcast fires exactly when this entry is
the CAPACITY-th one. -/
theorem submit_unvalidated_append (st : ServerState) (sid : Nat) (name : String)
    (score : Int) (s : GameSession) (h : st.sessions[sid]? = some s) :
    (getScore st sid name score).2.2 = Reply.success ∧
    ((getScore st sid name score).2.1 ≠ [] ↔
      s.playersScore.length + 1 = PLAYERS_PER_SESSION) ∧
    (s.playersScore.length + 1 = PLAYERS_PER_SESSION →
      (getScore st sid name score).2.1 =
        [Broadcast.scoresReady sid (s.playersScore ++ [⟨name, score⟩])]) ∧
    (s.playersScore.length + 1 ≠ PLAYERS_PER_SESSION →
      (getScore st sid name score).1.sessions[sid]? = some (pushScore name score s)) := by
  by_cases hlen : s.playersScore.length + 1 = PLAYERS_PER_SESSION
  · rw [getScore_complete h hlen]
    refine ⟨rfl, ?_, fun _ => rfl, fun hc => absurd hlen hc⟩
    simp [hlen]
  · rw [getScore_incomplete h hlen]
    refine ⟨rfl, ?_, fun hc => absurd hc hlen, fun _ => ?_⟩
    · simp [hlen]
    · have hlt : sid < st.sessions.length := by
        obtain ⟨hw, _⟩ := List.getElem?_eq_some_iff.mp h
        exact hw
      show (st.sessions.set sid (pushScore name score s))[sid]? = some (pushScore name score s)
      exact List.getElem?_set_self (by simpa using hlt)

/-- The session filled by the four-join trace. -/
def sessionABCD : GameSession :=
  ⟨[⟨"A", 1⟩, ⟨"B", 2⟩, ⟨"C", 3⟩, ⟨"D", 4⟩], [], 0, 0, 0⟩

/-- Witness for C10: after the four-join trace, a submission carrying
the name "ZZZ" — which belongs to none of the session's players — is
accepted and appended. -/
theorem submit_unvalidated_append_witness :
    ((runState initState evsFourJoins).sessions[0]? = some sessionABCD) ∧
    ((getScore (runState initState evsFourJoins) 0 "ZZZ" 7).2.2 = Reply.success ∧
     ((getScore (runState initState evsFourJoins) 0 "ZZZ" 7).2.1 ≠ [] ↔
        sessionABCD.playersScore.length + 1 = PLAYERS_PER_SESSION) ∧
     (sessionABCD.playersScore.length + 1 = PLAYERS_PER_SESSION →
       (getScore (runState initState evsFourJoins) 0 "ZZZ" 7).2.1 =
         [Broadcast.scoresReady 0 (sessionABCD.playersScore ++ [⟨"ZZZ", 7⟩])]) ∧
     (sessionABCD.playersScore.length + 1 ≠ PLAYERS_PER_SESSION →
       (getScore (runState initState evsFourJoins) 0 "ZZZ" 7).1.sessions[0]? =
         some (pushScore "ZZZ" 7 sessionABCD))) :=
  ⟨by decide, submit_unvalidated_append _ 0 "ZZZ" 7 sessionABCD (by decide)⟩

/-! Concrete event traces used to evaluate the handlers on real inputs. -/

/-- Claim C1.  The identifier handed out for the first session is its
array position 0 (broadcast `findFull 0` for the session with ghost
uid 0); after that session completes scoring and is spliced out, the id
0 resolves — through the very lookup `submitScore` uses — to the live
session with ghost uid 1.  Removing a session therefore makes a
previously issued session id denote a different live session, refuting
the claim at this concrete trace. -/
theorem issued_id_resolves_to_other_session :
    Broadcast.findFull 0 0 ∈ runLog initState evsTwoFullOneScored ∧
    ((runState initState evsTwoFullOneScored).sessions[0]?).map GameSession.uid = some 1 := by
  decide

/-- Claim C2.  In a full session where "A","B","C" have submitted,
the disconnect of "D" appends `{D, 0}` to the scores, making
`scores.length = PLAYERS_PER_SESSION`, yet the handler emits no
broadcast and leaves the session in the store (`disconnectedPlayersCount`
is 1, not 4) — the submission-induced completion path is not taken. -/
theorem disconnect_completion_skips_shared_path :
    (step (runState initState evsFullThreeScores) (Event.disconnect 4)).2 = [] ∧
    ((step (runState initState evsFullThreeScores) (Event.disconnect 4)).1.sessions.map
      (fun s => (s.playersScore, s.disconnectedPlayersCount))) =
      [([⟨"A", 10⟩, ⟨"B", 20⟩, ⟨"C", 30⟩, ⟨"D", 0⟩], 1)] := by
  decide

/-- Claim C3.  The first session emits its "scores ready" broadcast and
is removed, but a subsequent `getScore` with that session's issued id 0
does not fail with "Invalid session": it succeeds and appends the
submission to the other live session (ghost uid 1). -/
theorem submit_after_scores_ready_hits_other_session :
    Broadcast.scoresReady 0 [⟨"A", 1⟩, ⟨"B", 2⟩, ⟨"C", 3⟩, ⟨"D", 4⟩] ∈
      runLog initState evsTwoFullOneScored ∧
    (getScore (runState initState evsTwoFullOneScored) 0 "X" 5).2.2 = Reply.success ∧
    ((getScore (runState initState evsTwoFullOneScored) 0 "X" 5).1.sessions[0]?).map
      (fun s => (s.uid, s.playersScore.length)) = some (1, 1) := by
  decide

/-- Claim C4 counterexample.  A session whose four players all joined at
time 0 is full (scoring phase), yet the sweep at time
`SESSION_TIMEOUT + 1` removes it: `cleanup` filters on age alone and
does not exempt full sessions. -/
theorem full_expired_session_removed_by_sweep :
    ((runState initState evsFourJoins).sessions.map (fun s => s.players.length) =
      [PLAYERS_PER_SESSION]) ∧
    (runState initState (evsFourJoins ++ [Event.sweep (SESSION_TIMEOUT + 1)])).sessions = [] := by
  decide

/-- Claim C5.  Continuing the C2 trace: after the disconnect of "D"
brings the score list to capacity without completing the session, a
further submission for "A" is appended as well, so the session's
`playersScore` holds five entries, two of them for "A" — both bounds of
the claim fail on this trace. -/
theorem scores_exceed_capacity_with_duplicate :
    ((runState initState (evsFullThreeScores ++ [Event.disconnect 4, Event.submit 0 "A" 99])).sessions.map
      (fun s => s.playersScore.map ScoreEntry.name)) = [["A", "B", "C", "D", "A"]] := by
  decide

/-- Claim C6 counterexample.  The same connection (socket id 1) issues
two `find` requests; the handler performs no duplicate-connection check,
so the single live session contains that connection id twice. -/
theorem connection_in_session_twice :
    ((runState initState [Event.join "A" 1 0, Event.join "B" 1 0]).sessions.map
      (fun s => s.players.map Player.socketId)) = [[1, 1]] := by
  decide

/-- Claim C7 counterexample.  "A" joins and disconnects before the
session fills: no broadcast is emitted and the session, now empty, stays
in the store — and the very next `find` request (from "B") is placed
into that same session (ghost uid 0), so the session does appear in a
subsequent open-session lookup, refuting the claim's last conjunct. -/
theorem emptied_session_reused_by_find :
    ((runState initState [Event.join "A" 1 0, Event.disconnect 1]).sessions.map
      (fun s => (s.uid, s.players))) = [(0, [])] ∧
    runLog initState [Event.join "A" 1 0, Event.disconnect 1] = [] ∧
    ((runState initState [Event.join "A" 1 0, Event.disconnect 1, Event.join "B" 2 5]).sessions.map
      (fun s => (s.uid, s.players.map Player.name))) = [(0, ["B"])] := by
  decide

end Fahoot
